import Mathlib

/-
Verification of the Signal Normalization & Composite Index Engine of the
displacement-curve repository. The Python sources embedded here are
src/normalizers/earnings_normalizer.py, src/normalizers/composite_index.py
and the normalization core of src/data/generate_mock_phase4.py.

Numbers are modelled as rationals; Python's round(x, n) (banker's rounding
to n decimal places) is modelled by rne / roundTo below. Python dicts with
string keys are modelled as insertion-ordered association lists (dinsert
updates in place or appends, dget takes the first match; keys are unique
by construction, exactly as in a dict).
-/

set_option maxRecDepth 20000

-- ---------------------------------------------------------------------------
-- Python round(x, d): round half to even
-- ---------------------------------------------------------------------------

/-- Round a rational to the nearest integer, ties to the even integer
(the behaviour of Python's builtin round). -/
def rne (q : ℚ) : ℤ :=
  if q - ⌊q⌋ < 1/2 then ⌊q⌋
  else if 1/2 < q - ⌊q⌋ then ⌊q⌋ + 1
  else if ⌊q⌋ % 2 = 0 then ⌊q⌋ else ⌊q⌋ + 1

/-- Python's round(q, d): round to d decimal places, ties to even. -/
def roundTo (d : ℕ) (q : ℚ) : ℚ :=
  (rne (q * 10 ^ d) : ℚ) / 10 ^ d

theorem rne_int_add (m : ℤ) (r : ℚ) (h0 : 0 ≤ r) (h1 : r < 1) :
    rne ((m : ℚ) + r) =
      if r < 1/2 then m else if 1/2 < r then m + 1 else if m % 2 = 0 then m else m + 1 := by
  have hf : ⌊(m : ℚ) + r⌋ = m := by
    rw [add_comm, Int.floor_add_int, Int.floor_eq_zero_iff.mpr ⟨h0, h1⟩, zero_add]
  unfold rne
  rw [hf]
  have hr : (m : ℚ) + r - (m : ℤ) = r := by ring
  rw [hr]

theorem rne_intCast (m : ℤ) : rne (m : ℚ) = m := by
  have := rne_int_add m 0 le_rfl one_pos
  simpa using this

theorem rne_cases (q : ℚ) : rne q = ⌊q⌋ ∨ rne q = ⌊q⌋ + 1 := by
  unfold rne
  split_ifs <;> simp

theorem rne_le {q : ℚ} {n : ℤ} (h : q ≤ n) : rne q ≤ n := by
  have hfl : ⌊q⌋ ≤ n := by
    have := Int.floor_le_floor h
    simpa using this
  rcases rne_cases q with hc | hc
  · omega
  · by_contra hcon
    push_neg at hcon
    have hn : n ≤ ⌊q⌋ := by omega
    have h1 : (n : ℚ) ≤ (⌊q⌋ : ℚ) := by exact_mod_cast hn
    have h2 : q - ⌊q⌋ ≤ 0 := by
      have := Int.floor_le q
      linarith
    unfold rne at hc
    split_ifs at hc with hb1 hb2
    · omega
    · linarith
    · omega
    · linarith

theorem le_rne {q : ℚ} {n : ℤ} (h : (n : ℚ) ≤ q) : n ≤ rne q := by
  have hfl : n ≤ ⌊q⌋ := Int.le_floor.mpr h
  rcases rne_cases q with hc | hc <;> omega

theorem rne_sub_even (n : ℤ) (hn : n % 2 = 0) (q : ℚ) :
    rne ((n : ℚ) - q) = n - rne q := by
  have hq : q = (⌊q⌋ : ℚ) + Int.fract q := by
    rw [Int.floor_add_fract]
  have hr0 : 0 ≤ Int.fract q := Int.fract_nonneg q
  have hr1 : Int.fract q < 1 := Int.fract_lt_one q
  generalize hfdef : ⌊q⌋ = f at hq
  generalize hrdef : Int.fract q = r at hq hr0 hr1
  by_cases hz : r = 0
  · have hqf : q = (f : ℚ) := by rw [hq, hz, add_zero]
    have h1 : (n : ℚ) - q = ((n - f : ℤ) : ℚ) := by rw [hqf]; push_cast; ring
    rw [h1, rne_intCast, hqf, rne_intCast]
  · have hr0' : 0 < r := lt_of_le_of_ne hr0 (Ne.symm hz)
    have h1 : (n : ℚ) - q = ((n - f - 1 : ℤ) : ℚ) + (1 - r) := by
      rw [hq]; push_cast; ring
    have hrq : rne q =
        if r < 1/2 then f else if 1/2 < r then f + 1 else if f % 2 = 0 then f else f + 1 := by
      have := rne_int_add f r hr0 hr1
      rwa [← hq] at this
    have hrn : rne ((n : ℚ) - q) =
        if 1 - r < 1/2 then n - f - 1
        else if 1/2 < 1 - r then n - f
        else if (n - f - 1) % 2 = 0 then n - f - 1 else n - f := by
      rw [h1, rne_int_add (n - f - 1) (1 - r) (by linarith) (by linarith)]
      split_ifs <;> omega
    rw [hrn, hrq]
    rcases lt_trichotomy r (1/2) with hcase | hcase | hcase <;>
      split_ifs <;> first | omega | (exfalso; linarith)

theorem rne_eq_down {q : ℚ} {m : ℤ} (h1 : (m : ℚ) ≤ q) (h2 : q < (m : ℚ) + 1/2) :
    rne q = m := by
  have := rne_int_add m (q - m) (by linarith) (by linarith)
  rw [show (m : ℚ) + (q - m) = q by ring] at this
  rw [this, if_pos (by linarith)]

theorem rne_eq_up {q : ℚ} {m : ℤ} (h1 : (m : ℚ) + 1/2 < q) (h2 : q < (m : ℚ) + 1) :
    rne q = m + 1 := by
  have := rne_int_add m (q - m) (by linarith) (by linarith)
  rw [show (m : ℚ) + (q - m) = q by ring] at this
  rw [this, if_neg (by push_neg; linarith), if_pos (by linarith)]

theorem roundTo_eq_down {d : ℕ} {q : ℚ} {m : ℤ} (h1 : (m : ℚ) ≤ q * 10 ^ d)
    (h2 : q * 10 ^ d < (m : ℚ) + 1/2) : roundTo d q = (m : ℚ) / 10 ^ d := by
  unfold roundTo
  rw [rne_eq_down h1 h2]

theorem roundTo_eq_up {d : ℕ} {q : ℚ} {m : ℤ} (h1 : (m : ℚ) + 1/2 < q * 10 ^ d)
    (h2 : q * 10 ^ d < (m : ℚ) + 1) : roundTo d q = ((m : ℚ) + 1) / 10 ^ d := by
  unfold roundTo
  rw [rne_eq_up h1 h2]
  push_cast
  ring_nf

theorem rne_eq_tie_even {q : ℚ} {m : ℤ} (h : q = (m : ℚ) + 1/2) (he : m % 2 = 0) :
    rne q = m := by
  have := rne_int_add m (1/2) (by norm_num) (by norm_num)
  rw [← h] at this
  rw [this, if_neg (by norm_num), if_neg (by norm_num), if_pos he]

theorem rne_eq_tie_odd {q : ℚ} {m : ℤ} (h : q = (m : ℚ) + 1/2) (ho : ¬ m % 2 = 0) :
    rne q = m + 1 := by
  have := rne_int_add m (1/2) (by norm_num) (by norm_num)
  rw [← h] at this
  rw [this, if_neg (by norm_num), if_neg (by norm_num), if_neg ho]

theorem roundTo_eq_tie_even {d : ℕ} {q : ℚ} {m : ℤ} (h : q * 10 ^ d = (m : ℚ) + 1/2)
    (he : m % 2 = 0) : roundTo d q = (m : ℚ) / 10 ^ d := by
  unfold roundTo
  rw [rne_eq_tie_even h he]

theorem roundTo_eq_tie_odd {d : ℕ} {q : ℚ} {m : ℤ} (h : q * 10 ^ d = (m : ℚ) + 1/2)
    (ho : ¬ m % 2 = 0) : roundTo d q = ((m : ℚ) + 1) / 10 ^ d := by
  unfold roundTo
  rw [rne_eq_tie_odd h ho]
  push_cast
  ring_nf

theorem roundTo_eq_self {d : ℕ} {q : ℚ} {m : ℤ} (h : q * 10 ^ d = (m : ℚ)) :
    roundTo d q = q := by
  unfold roundTo
  rw [h, rne_intCast, ← h]
  field_simp

theorem roundTo_zero (d : ℕ) : roundTo d 0 = 0 := by
  rw [roundTo_eq_self (m := 0) (by norm_num)]

theorem roundTo_nonneg {d : ℕ} {q : ℚ} (h : 0 ≤ q) : 0 ≤ roundTo d q := by
  unfold roundTo
  apply div_nonneg _ (by positivity)
  have h10 : ((0 : ℤ) : ℚ) ≤ q * 10 ^ d := by positivity
  have := le_rne h10
  exact_mod_cast this

theorem roundTo_le_intCast {d : ℕ} {q : ℚ} {n : ℤ} (h : q ≤ (n : ℚ)) :
    roundTo d q ≤ n := by
  unfold roundTo
  rw [div_le_iff₀ (by positivity)]
  have hmul : q * 10 ^ d ≤ ((n * 10 ^ d : ℤ) : ℚ) := by
    push_cast
    have h0 : (0 : ℚ) ≤ 10 ^ d := by positivity
    exact mul_le_mul_of_nonneg_right h h0
  have := rne_le hmul
  calc (rne (q * 10 ^ d) : ℚ) ≤ ((n * 10 ^ d : ℤ) : ℚ) := by exact_mod_cast this
    _ = (n : ℚ) * 10 ^ d := by push_cast; ring

theorem intCast_le_roundTo {d : ℕ} {q : ℚ} {n : ℤ} (h : (n : ℚ) ≤ q) :
    (n : ℚ) ≤ roundTo d q := by
  unfold roundTo
  rw [le_div_iff₀ (by positivity)]
  have hmul : ((n * 10 ^ d : ℤ) : ℚ) ≤ q * 10 ^ d := by
    push_cast
    have h0 : (0 : ℚ) ≤ 10 ^ d := by positivity
    exact mul_le_mul_of_nonneg_right h h0
  have := le_rne hmul
  calc (n : ℚ) * 10 ^ d = ((n * 10 ^ d : ℤ) : ℚ) := by push_cast; ring
    _ ≤ (rne (q * 10 ^ d) : ℚ) := by exact_mod_cast this

theorem roundTo_hundred_sub (d : ℕ) (q : ℚ) :
    roundTo d (100 - q) = 100 - roundTo d q := by
  unfold roundTo
  have h1 : (100 - q) * 10 ^ d = ((100 * 10 ^ d : ℤ) : ℚ) - q * 10 ^ d := by
    push_cast; ring
  rw [h1, rne_sub_even (100 * 10 ^ d) (by omega) (q * 10 ^ d)]
  have h10 : ((10 : ℚ)) ^ d ≠ 0 := by positivity
  push_cast
  field_simp

-- ---------------------------------------------------------------------------
-- Python dicts as insertion-ordered association lists
-- ---------------------------------------------------------------------------

/-- Lookup in an association list (first match; keys are unique in lists
built with dinsert, as in a Python dict). -/
def dget {α β : Type _} [DecidableEq α] : List (α × β) → α → Option β
  | [], _ => none
  | (k, v) :: rest, a => if k = a then some v else dget rest a

/-- Lookup with a default, modelling Python's dict.get(key, default). -/
def dgetD {α β : Type _} [DecidableEq α] (m : List (α × β)) (a : α) (dflt : β) : β :=
  (dget m a).getD dflt

/-- values[k] = v on a Python dict: update in place if the key exists,
else append. -/
def dinsert {α β : Type _} [DecidableEq α] : List (α × β) → α → β → List (α × β)
  | [], a, b => [(a, b)]
  | (k, v) :: rest, a, b => if k = a then (k, b) :: rest else (k, v) :: dinsert rest a b

theorem dget_dinsert_self {α β : Type _} [DecidableEq α] (m : List (α × β)) (k : α) (v : β) :
    dget (dinsert m k v) k = some v := by
  induction m with
  | nil => simp [dinsert, dget]
  | cons hd tl ih =>
    obtain ⟨k', v'⟩ := hd
    by_cases h : k' = k
    · simp [dinsert, dget, h]
    · simp [dinsert, dget, h, ih]

theorem dget_dinsert_preserve {α β : Type _} [DecidableEq α]
    (m : List (α × β)) (k k' : α) (v : β) (h : dget m k = some v) :
    dget (dinsert m k' v) k = some v := by
  induction m with
  | nil => simp [dget] at h
  | cons hd tl ih =>
    obtain ⟨k0, v0⟩ := hd
    simp only [dinsert]
    by_cases h0 : k0 = k'
    · rw [if_pos h0]
      by_cases h1 : k0 = k
      · simp only [dget, if_pos h1] at h ⊢
      · simp only [dget, if_neg h1] at h ⊢
        exact h
    · rw [if_neg h0]
      by_cases h1 : k0 = k
      · simp only [dget, if_pos h1] at h ⊢
        exact h
      · simp only [dget, if_neg h1] at h ⊢
        exact ih h

-- min / max of a nonempty list of rationals (Python's min(vals) / max(vals))

def listMin : List ℚ → ℚ
  | [] => 0
  | x :: xs => xs.foldl min x

def listMax : List ℚ → ℚ
  | [] => 0
  | x :: xs => xs.foldl max x

theorem foldl_min_le_init (l : List ℚ) : ∀ a : ℚ, l.foldl min a ≤ a := by
  induction l with
  | nil => simp
  | cons x xs ih => exact fun a => le_trans (ih (min a x)) (min_le_left a x)

theorem foldl_min_le_mem (l : List ℚ) (x : ℚ) (h : x ∈ l) :
    ∀ a : ℚ, l.foldl min a ≤ x := by
  induction l with
  | nil => simp at h
  | cons y ys ih =>
    intro a
    rcases List.mem_cons.mp h with rfl | hmem
    · exact le_trans (foldl_min_le_init ys (min a x)) (min_le_right a x)
    · exact ih hmem (min a y)

theorem init_le_foldl_max (l : List ℚ) : ∀ a : ℚ, a ≤ l.foldl max a := by
  induction l with
  | nil => simp
  | cons x xs ih => exact fun a => le_trans (le_max_left a x) (ih (max a x))

theorem mem_le_foldl_max (l : List ℚ) (x : ℚ) (h : x ∈ l) :
    ∀ a : ℚ, x ≤ l.foldl max a := by
  induction l with
  | nil => simp at h
  | cons y ys ih =>
    intro a
    rcases List.mem_cons.mp h with rfl | hmem
    · exact le_trans (le_max_right a x) (init_le_foldl_max ys (max a x))
    · exact ih hmem (max a y)

theorem listMin_le {l : List ℚ} {x : ℚ} (h : x ∈ l) : listMin l ≤ x := by
  cases l with
  | nil => simp at h
  | cons y ys =>
    simp only [listMin]
    rcases List.mem_cons.mp h with rfl | hmem
    · exact foldl_min_le_init ys x
    · exact foldl_min_le_mem ys x hmem y

theorem le_listMax {l : List ℚ} {x : ℚ} (h : x ∈ l) : x ≤ listMax l := by
  cases l with
  | nil => simp at h
  | cons y ys =>
    simp only [listMax]
    rcases List.mem_cons.mp h with rfl | hmem
    · exact init_le_foldl_max ys x
    · exact mem_le_foldl_max ys x hmem y

example : rne (1000/3) = 333 := rne_eq_down (by norm_num) (by norm_num)
example : roundTo 2 (10/3) = 333/100 := by
  rw [roundTo_eq_down (m := 333) (by norm_num) (by norm_num)]
  norm_num
example : roundTo 1 (405/100) = 4 := by
  rw [roundTo_eq_tie_even (m := 40) (by norm_num) (by norm_num)]
  norm_num
example : roundTo 1 (415/100) = 42/10 := by
  rw [roundTo_eq_tie_odd (m := 41) (by norm_num) (by norm_num)]
  norm_num

-- ---------------------------------------------------------------------------
-- src/normalizers/earnings_normalizer.py
-- ---------------------------------------------------------------------------

namespace EarningsNormalizer

/-- RELABELING_THRESHOLD = 3.0 -/
def RELABELING_THRESHOLD : ℚ := 3

/-- One raw quarterly entry of a firm (data/earnings/processed/revenue.json).
A field holds none where the JSON value is null or the key is absent. -/
structure QuarterEntry where
  quarter : String
  total_revenue_mm : Option ℚ
  ai_revenue_mm : Option ℚ
  headcount : Option ℚ
deriving DecidableEq

/-- A quarterly entry with the computed fields added by normalize_firm.
The input fields are carried over unchanged (dict(q) shallow copy). -/
structure NormalizedEntry where
  quarter : String
  total_revenue_mm : Option ℚ
  ai_revenue_mm : Option ℚ
  headcount : Option ℚ
  ai_pct : Option ℚ
  revenue_per_employee : Option ℚ
  relabeling_index : Option ℚ
  relabeling_flag : Bool
deriving DecidableEq

/-- compute_growth_rate(current, previous). -/
def compute_growth_rate (current previous : ℚ) : ℚ :=
  if |previous| < 1/100 then 0 else (current - previous) / previous

/-- The body of normalize_firm's loop for index i: prev is
quarterly_data[i-1] when i > 0, none when i = 0. -/
def normalize_entry (prev : Option QuarterEntry) (q : QuarterEntry) : NormalizedEntry :=
  let total_rev := q.total_revenue_mm.getD 0
  let ai_rev := q.ai_revenue_mm.getD 0
  let headcount := q.headcount.getD 0
  let ai_pct := if 0 < total_rev ∧ q.ai_revenue_mm ≠ none
    then some (roundTo 2 (ai_rev / total_rev * 100)) else none
  let revenue_per_employee := if 0 < headcount ∧ 0 < total_rev
    then some (roundTo 1 (total_rev * 1000000 / headcount / 1000)) else none
  match prev, q.ai_revenue_mm with
  | some p, some _ =>
    let prev_ai := p.ai_revenue_mm.getD 0
    let prev_total := p.total_revenue_mm.getD 0
    let ai_growth := compute_growth_rate ai_rev prev_ai
    let total_growth := compute_growth_rate total_rev prev_total
    let relabel_idx := if 1/1000 < |total_growth| then ai_growth / total_growth
      else if 0 < ai_growth then |ai_growth| * 100 else 0
    let idx := roundTo 2 (max 0 relabel_idx)
    { quarter := q.quarter, total_revenue_mm := q.total_revenue_mm,
      ai_revenue_mm := q.ai_revenue_mm, headcount := q.headcount,
      ai_pct := ai_pct, revenue_per_employee := revenue_per_employee,
      relabeling_index := some idx,
      relabeling_flag := decide (RELABELING_THRESHOLD < idx) }
  | _, _ =>
    { quarter := q.quarter, total_revenue_mm := q.total_revenue_mm,
      ai_revenue_mm := q.ai_revenue_mm, headcount := q.headcount,
      ai_pct := ai_pct, revenue_per_employee := revenue_per_employee,
      relabeling_index := none, relabeling_flag := false }

/-- normalize_firm's loop: threads the previous quarter's entry. -/
def normalize_firm_aux : Option QuarterEntry → List QuarterEntry → List NormalizedEntry
  | _, [] => []
  | prev, q :: rest => normalize_entry prev q :: normalize_firm_aux (some q) rest

/-- normalize_firm(quarterly_data). -/
def normalize_firm (quarterly_data : List QuarterEntry) : List NormalizedEntry :=
  normalize_firm_aux none quarterly_data

/-- A firm's normalized record ({"name": ..., "quarterly": [...]}). -/
structure Firm where
  name : String
  quarterly : List NormalizedEntry

/-- One entry of the recomputed aggregate list. -/
structure AggregateEntry where
  quarter : String
  total_ai_revenue_mm : Option ℚ
  avg_ai_pct : Option ℚ
  avg_relabeling_index : Option ℚ
  avg_rev_per_employee : Option ℚ
  firms_flagged_relabeling : ℕ
deriving DecidableEq

/-- firm_by_quarter[(ticker, q_label)]: the dict is built by iterating the
firm's quarterly list in order with overwrite, so the last entry with the
given quarter label wins. -/
def firm_by_quarter (firm : Firm) (q_label : String) : Option NormalizedEntry :=
  (firm.quarterly.filter (fun e => e.quarter == q_label)).getLast?

/-- The entries contributing to one aggregate quarter: for each firm, in
order, its entry for q_label if it has one (q is None -> continue). -/
def quarter_entries (firms : List (String × Firm)) (q_label : String) :
    List NormalizedEntry :=
  firms.filterMap (fun tf => firm_by_quarter tf.2 q_label)

/-- The body of compute_aggregate's loop for one quarter label. -/
def aggregate_for (firms : List (String × Firm)) (q_label : String) : AggregateEntry :=
  let qs := quarter_entries firms q_label
  let total_ai := (qs.filterMap (fun q => q.ai_revenue_mm)).foldl (· + ·) 0
  let ai_pcts := qs.filterMap (fun q => q.ai_pct)
  let relabel_indices := qs.filterMap (fun q => q.relabeling_index)
  let rev_per_emps := qs.filterMap (fun q => q.revenue_per_employee)
  { quarter := q_label,
    total_ai_revenue_mm := if 0 < total_ai then some total_ai else none,
    avg_ai_pct := if ai_pcts.isEmpty then none
      else some (roundTo 1 (ai_pcts.foldl (· + ·) 0 / ai_pcts.length)),
    avg_relabeling_index := if relabel_indices.isEmpty then none
      else some (roundTo 1 (relabel_indices.foldl (· + ·) 0 / relabel_indices.length)),
    avg_rev_per_employee := if rev_per_emps.isEmpty then none
      else some (roundTo 1 (rev_per_emps.foldl (· + ·) 0 / rev_per_emps.length)),
    firms_flagged_relabeling :=
      (relabel_indices.filter (fun idx => decide (RELABELING_THRESHOLD < idx))).length }

/-- compute_aggregate(firms): sorted set of all quarter labels, then the
per-quarter loop. -/
def compute_aggregate (firms : List (String × Firm)) : List AggregateEntry :=
  let all_quarters :=
    (firms.flatMap (fun tf => tf.2.quarterly.map (fun q => q.quarter))).dedup
  let quarters := all_quarters.mergeSort (fun a b => a ≤ b)
  quarters.map (aggregate_for firms)

end EarningsNormalizer

-- ---------------------------------------------------------------------------
-- src/normalizers/composite_index.py
-- ---------------------------------------------------------------------------

namespace CompositeIndex

/-- Python's f"{n:02d}": pad with a leading zero to width 2. -/
def fmt2 (n : ℤ) : String :=
  if 0 ≤ n ∧ n < 10 then "0" ++ toString n else toString n

/-- f"{year}-{month_num:02d}", the monthly date keys. -/
def dateStr (year month_num : ℤ) : String :=
  toString year ++ "-" ++ fmt2 month_num

/-- The seven signal identifiers (the keys of WEIGHTS / SIGNAL_FILES). -/
inductive SignalKey where
  | employment
  | rev_per_employee
  | vc_funding
  | job_ratio
  | trends
  | github
  | regulatory
deriving DecidableEq

/-- WEIGHTS, in its insertion order. -/
def WEIGHTS : List (SignalKey × ℚ) :=
  [(.employment, 25/100), (.rev_per_employee, 20/100), (.vc_funding, 15/100),
   (.job_ratio, 15/100), (.trends, 10/100), (.github, 10/100), (.regulatory, 5/100)]

/-- The keys of WEIGHTS in iteration order (for key in WEIGHTS). -/
def SIGNALS : List SignalKey := WEIGHTS.map Prod.fst

/-- MONTHS: 2022-11 through 2025-12 (38 months), as generated by the
module-level loop (range(2022, 2026); start_m = 11 for 2022 else 1). -/
def MONTHS : List String :=
  ([(2022 : ℤ), 2023, 2024, 2025]).flatMap (fun year =>
    (if year = 2022 then [(11 : ℤ), 12] else [1, 2, 3, 4, 5, 6, 7, 8, 9, 10, 11, 12]).map
      (fun m => dateStr year m))

/-- get_phase(score). -/
def get_phase (score : ℚ) : String × String :=
  if score ≤ 25 then ("Pre-disruption", "0-25")
  else if score ≤ 50 then ("Productivity", "26-50")
  else if score ≤ 75 then ("Erosion", "51-75")
  else ("Displacement", "76-100")

-- Input documents. A structure field is none where the key is absent (or
-- the JSON value is null); quarter labels are modelled already parsed as
-- (year, quarter-number) integer pairs, none standing for a missing or
-- empty quarter string (entry.get("quarter", "") falsy -> continue).

structure EmpMonthlyEntry where
  date : String
  total_employment : Option ℚ
  employment : Option ℚ

structure SeriesEntry where
  date : String
  value : ℚ

structure SeriesBlock where
  data : Option (List SeriesEntry)

structure EmpAggEntry where
  date : Option String
  total_employment : Option ℚ

structure EmploymentDoc where
  monthly : Option (List EmpMonthlyEntry)
  series : Option (List (String × SeriesBlock))
  aggregate : Option (List EmpAggEntry)

structure EarnAggEntry where
  quarter : Option (ℤ × ℤ)
  avg_rev_per_employee : Option ℚ

structure EarningsDoc where
  aggregate : Option (List EarnAggEntry)

structure VcAggEntry where
  quarter : Option (ℤ × ℤ)
  total_funding_mm : Option ℚ

structure VcDoc where
  aggregate : Option (List VcAggEntry)

structure JobMonthlyEntry where
  date : String
  ai_to_traditional_ratio : Option ℚ

structure JobsDoc where
  monthly : Option (List JobMonthlyEntry)

structure TrendsMonthlyEntry where
  date : String
  interest : Option ℚ
  value : Option ℚ

structure TrendsAggEntry where
  date : Option String
  interest : Option ℚ

structure TrendsDoc where
  monthly : Option (List TrendsMonthlyEntry)
  aggregate : Option (List TrendsAggEntry)

structure GithubMonthlyEntry where
  date : String
  activity_index : Option ℚ
  stars : Option ℚ

structure GithubDoc where
  monthly : Option (List GithubMonthlyEntry)

structure RegAggEntry where
  quarter : Option (ℤ × ℤ)
  cumulative_documents : Option ℚ

structure RegulatoryDoc where
  aggregate : Option (List RegAggEntry)

/-- The seven loaded signal documents (load_json: none when the file is
missing). -/
structure SignalDocs where
  employment : Option EmploymentDoc
  rev_per_employee : Option EarningsDoc
  vc_funding : Option VcDoc
  job_ratio : Option JobsDoc
  trends : Option TrendsDoc
  github : Option GithubDoc
  regulatory : Option RegulatoryDoc

/-- extract_monthly_employment(data). -/
def extract_monthly_employment : Option EmploymentDoc → List (String × ℚ)
  | none => []
  | some d =>
    match d.monthly with
    | some entries =>
      entries.foldl (fun values e =>
        dinsert values e.date (e.total_employment.getD (e.employment.getD 0))) []
    | none =>
      match d.series with
      | some blocks =>
        blocks.foldl (fun values sb =>
          if sb.1 = "CES5000000001" then
            (sb.2.data.getD []).foldl (fun vs e => dinsert vs e.date e.value) values
          else values) []
      | none =>
        match d.aggregate with
        | some entries =>
          entries.foldl (fun values e =>
            dinsert values (e.date.getD "") (e.total_employment.getD 0)) []
        | none => []

/-- extract_monthly_rev_per_employee(data): quarterly, replicated to the
quarter's three months (month_num = (qn - 1) * 3 + m for m in 1..3). -/
def extract_monthly_rev_per_employee : Option EarningsDoc → List (String × ℚ)
  | none => []
  | some d =>
    match d.aggregate with
    | none => []
    | some entries =>
      entries.foldl (fun values e =>
        match e.quarter with
        | none => values
        | some (year, qn) =>
          match e.avg_rev_per_employee with
          | none => values
          | some rev_pe =>
            ([(1 : ℤ), 2, 3]).foldl (fun vs m =>
              dinsert vs (dateStr year ((qn - 1) * 3 + m)) rev_pe) values) []

/-- extract_monthly_vc_funding(data): quarterly total divided by 3 and
spread over the quarter's three months. -/
def extract_monthly_vc_funding : Option VcDoc → List (String × ℚ)
  | none => []
  | some d =>
    match d.aggregate with
    | none => []
    | some entries =>
      entries.foldl (fun values e =>
        match e.quarter with
        | none => values
        | some (year, qn) =>
          let funding := e.total_funding_mm.getD 0
          ([(1 : ℤ), 2, 3]).foldl (fun vs m =>
            dinsert vs (dateStr year ((qn - 1) * 3 + m)) (funding / 3)) values) []

/-- extract_monthly_job_ratio(data). -/
def extract_monthly_job_ratio : Option JobsDoc → List (String × ℚ)
  | none => []
  | some d =>
    match d.monthly with
    | none => []
    | some entries =>
      entries.foldl (fun values e =>
        match e.ai_to_traditional_ratio with
        | none => values
        | some val => dinsert values e.date val) []

/-- extract_monthly_trends(data). -/
def extract_monthly_trends : Option TrendsDoc → List (String × ℚ)
  | none => []
  | some d =>
    match d.monthly with
    | some entries =>
      entries.foldl (fun values e =>
        dinsert values e.date (e.interest.getD (e.value.getD 0))) []
    | none =>
      match d.aggregate with
      | some entries =>
        entries.foldl (fun values e =>
          dinsert values (e.date.getD "") (e.interest.getD 0)) []
      | none => []

/-- extract_monthly_github(data). -/
def extract_monthly_github : Option GithubDoc → List (String × ℚ)
  | none => []
  | some d =>
    match d.monthly with
    | none => []
    | some entries =>
      entries.foldl (fun values e =>
        dinsert values e.date (e.activity_index.getD (e.stars.getD 0))) []

/-- extract_monthly_regulatory(data): cumulative count replicated over the
quarter's three months. -/
def extract_monthly_regulatory : Option RegulatoryDoc → List (String × ℚ)
  | none => []
  | some d =>
    match d.aggregate with
    | none => []
    | some entries =>
      entries.foldl (fun values e =>
        match e.quarter with
        | none => values
        | some (year, qn) =>
          let cum_docs := e.cumulative_documents.getD 0
          ([(1 : ℤ), 2, 3]).foldl (fun vs m =>
            dinsert vs (dateStr year ((qn - 1) * 3 + m)) cum_docs) values) []

/-- raw_series[key] = EXTRACTORS[key](signal_data[key]). -/
def raw_series (docs : SignalDocs) : SignalKey → List (String × ℚ)
  | .employment => extract_monthly_employment docs.employment
  | .rev_per_employee => extract_monthly_rev_per_employee docs.rev_per_employee
  | .vc_funding => extract_monthly_vc_funding docs.vc_funding
  | .job_ratio => extract_monthly_job_ratio docs.job_ratio
  | .trends => extract_monthly_trends docs.trends
  | .github => extract_monthly_github docs.github
  | .regulatory => extract_monthly_regulatory docs.regulatory

/-- normalize_series(values, invert): 0-100 min-max scaling over the
observed values (span falls back to 1 on a degenerate range). Returns
(normalized, lo, hi). -/
def normalize_series (values : List (String × ℚ)) (invert : Bool) :
    List (String × ℚ) × ℚ × ℚ :=
  match values with
  | [] => ([], 0, 0)
  | v0 :: rest =>
    let vals := (v0 :: rest).map Prod.snd
    let lo := listMin vals
    let hi := listMax vals
    let span := if hi ≠ lo then hi - lo else 1
    (((v0 :: rest).map (fun p =>
      (p.1, if invert then roundTo 1 ((hi - p.2) / span * 100)
            else roundTo 1 ((p.2 - lo) / span * 100)))), lo, hi)

/-- One entry of a month's components map. -/
structure Component where
  raw_value : ℚ
  normalized : ℚ
  weighted : ℚ
deriving DecidableEq

/-- One monthly record of the composite output. -/
structure MonthlyRecord where
  date : String
  score : ℚ
  phase : String
  phase_range : String
  components : List (SignalKey × Component)
  trend : String
deriving DecidableEq

structure Metadata where
  source : String
  last_updated : String
  mock : Bool
  version : String
deriving DecidableEq

structure EventRec where
  date : String
  label : String
  type : String
deriving DecidableEq

/-- EVENTS (static milestone annotations, passed through unchanged). -/
def EVENTS : List EventRec :=
  [⟨"2022-11", "ChatGPT Launch", "ai_release"⟩,
   ⟨"2023-03", "GPT-4 Release", "ai_release"⟩,
   ⟨"2023-07", "Claude 2 Launch", "ai_release"⟩,
   ⟨"2024-03", "Claude 3 Launch", "ai_release"⟩,
   ⟨"2024-06", "EU AI Act Final", "regulatory"⟩,
   ⟨"2024-11", "GPT-4o Launch", "ai_release"⟩,
   ⟨"2025-02", "Claude 3.5 Opus", "ai_release"⟩,
   ⟨"2025-06", "Accenture AI Revenue $3B", "earnings"⟩]

/-- The final output document. -/
structure Composite where
  metadata : Metadata
  weights : List (SignalKey × ℚ)
  monthly : List MonthlyRecord
  events : List EventRec
deriving DecidableEq

/-- The components map built for one month (the inner for key in WEIGHTS
loop; missing dates fall back to raw 0 / normalized 0). -/
def mkComponents (raw norm : SignalKey → List (String × ℚ)) (date_label : String) :
    List (SignalKey × Component) :=
  SIGNALS.map (fun key =>
    let raw_val := dgetD (raw key) date_label 0
    let norm_val := dgetD (norm key) date_label 0
    (key, ⟨raw_val, norm_val, roundTo 2 (norm_val * dgetD WEIGHTS key 0)⟩))

/-- The month loop of compute_composite_from_signals: builds each record
and threads prev_score for the trend classification. -/
def buildMonthly (raw norm : SignalKey → List (String × ℚ)) :
    List String → Option ℚ → List MonthlyRecord
  | [], _ => []
  | date_label :: rest, prev_score =>
    let components := mkComponents raw norm date_label
    let score := roundTo 1 ((components.map (fun p => p.2.weighted)).foldl (· + ·) 0)
    let phase := get_phase score
    let trend := match prev_score with
      | none => "flat"
      | some prev =>
        if prev + 1/2 < score then "up"
        else if score < prev - 1/2 then "down"
        else "flat"
    { date := date_label, score := score, phase := phase.1, phase_range := phase.2,
      components := components, trend := trend } :: buildMonthly raw norm rest (some score)

/-- compute_composite_from_signals(), with the signal documents and the
current UTC date (datetime.utcnow().strftime("%Y-%m-%d")) as explicit
inputs. -/
def compute_composite_from_signals (docs : SignalDocs) (today : String) : Composite :=
  let raw := raw_series docs
  let norm := fun key =>
    (normalize_series (raw key) (decide (key = SignalKey.employment))).1
  { metadata := { source := "Displacement Curve Composite", last_updated := today,
                  mock := false, version := "1.0" },
    weights := WEIGHTS,
    monthly := buildMonthly raw norm MONTHS none,
    events := EVENTS }

end CompositeIndex

-- ---------------------------------------------------------------------------
-- src/data/generate_mock_phase4.py: the fixed-range normalizer
-- ---------------------------------------------------------------------------

namespace MockPhase4

open CompositeIndex (SignalKey)

/-- The fixed theoretical normalization ranges of generate_composite. -/
def ranges : SignalKey → ℚ × ℚ
  | .employment => (1350, 1620)
  | .rev_per_employee => (12, 50)
  | .vc_funding => (0, 900)
  | .job_ratio => (0, 55/100)
  | .trends => (0, 100)
  | .github => (0, 100)
  | .regulatory => (0, 100)

/-- The arithmetic of generate_composite's local normalize(key, value),
with the range and the direction flag as explicit parameters: midpoint 50
on a degenerate range, else min-max scaling rounded to one decimal and
clamped into [0, 100]. -/
def normalize_range (lo hi : ℚ) (invert : Bool) (value : ℚ) : ℚ :=
  if hi = lo then 50
  else if invert then max 0 (min 100 (roundTo 1 ((hi - value) / (hi - lo) * 100)))
  else max 0 (min 100 (roundTo 1 ((value - lo) / (hi - lo) * 100)))

/-- normalize(key, value): the range comes from the ranges table and the
inverted direction is used exactly for the employment key. -/
def normalize (key : SignalKey) (value : ℚ) : ℚ :=
  normalize_range (ranges key).1 (ranges key).2 (decide (key = SignalKey.employment)) value

end MockPhase4

-- ---------------------------------------------------------------------------
-- Shared helper lemmas
-- ---------------------------------------------------------------------------

theorem roundTo_mem_Icc {d : ℕ} {q : ℚ} (h0 : 0 ≤ q) (h1 : q ≤ 100) :
    0 ≤ roundTo d q ∧ roundTo d q ≤ 100 := by
  refine ⟨roundTo_nonneg h0, ?_⟩
  have := roundTo_le_intCast (d := d) (n := 100) (by exact_mod_cast h1)
  exact_mod_cast this

theorem normalize_range_nonneg (lo hi : ℚ) (invert : Bool) (v : ℚ) :
    0 ≤ MockPhase4.normalize_range lo hi invert v := by
  unfold MockPhase4.normalize_range
  split_ifs <;> norm_num

theorem normalize_range_le (lo hi : ℚ) (invert : Bool) (v : ℚ) :
    MockPhase4.normalize_range lo hi invert v ≤ 100 := by
  unfold MockPhase4.normalize_range
  split_ifs <;> norm_num

theorem clamp_add_clamp_compl (t : ℚ) :
    max 0 (min 100 (100 - t)) + max 0 (min 100 t) = 100 := by
  rcases le_total t 0 with h | h
  · rw [min_eq_right (by linarith : t ≤ (100 : ℚ)), max_eq_left h,
        min_eq_left (by linarith : (100 : ℚ) ≤ 100 - t),
        max_eq_right (by norm_num : (0 : ℚ) ≤ 100)]
    norm_num
  · rcases le_total t 100 with h2 | h2
    · rw [min_eq_right h2, max_eq_right h,
          min_eq_right (by linarith : 100 - t ≤ (100 : ℚ)),
          max_eq_right (by linarith : (0 : ℚ) ≤ 100 - t)]
      ring
    · rw [min_eq_left h2, max_eq_right (by norm_num : (0 : ℚ) ≤ 100),
          min_eq_right (by linarith : 100 - t ≤ (100 : ℚ)),
          max_eq_left (by linarith : 100 - t ≤ (0 : ℚ))]
      norm_num

-- sanity checks that string date keys evaluate
example : CompositeIndex.dateStr 2024 1 = "2024-01" := by decide
example : CompositeIndex.MONTHS.length = 38 := by decide

-- ---------------------------------------------------------------------------
-- C7: phase classification bands
-- ---------------------------------------------------------------------------

/-- C7: get_phase maps a score to Pre-disruption ("0-25") when s ≤ 25,
Productivity ("26-50") when 25 < s ≤ 50, Erosion ("51-75") when
50 < s ≤ 75, and Displacement ("76-100") when 75 < s: every band's upper
edge is inclusive. -/
theorem get_phase_bands (s : ℚ) :
    (s ≤ 25 → CompositeIndex.get_phase s = ("Pre-disruption", "0-25")) ∧
    (25 < s → s ≤ 50 → CompositeIndex.get_phase s = ("Productivity", "26-50")) ∧
    (50 < s → s ≤ 75 → CompositeIndex.get_phase s = ("Erosion", "51-75")) ∧
    (75 < s → CompositeIndex.get_phase s = ("Displacement", "76-100")) := by
  unfold CompositeIndex.get_phase
  refine ⟨fun h => ?_, fun h1 h2 => ?_, fun h1 h2 => ?_, fun h => ?_⟩ <;>
    split_ifs <;> first | rfl | linarith

/-- C7 witness: the four boundary scores 25.0, 25.1, 75.0, 75.1 land in
Pre-disruption, Productivity, Erosion and Displacement respectively. -/
theorem get_phase_bands_witness :
    CompositeIndex.get_phase 25 = ("Pre-disruption", "0-25") ∧
    CompositeIndex.get_phase (251/10) = ("Productivity", "26-50") ∧
    CompositeIndex.get_phase 75 = ("Erosion", "51-75") ∧
    CompositeIndex.get_phase (751/10) = ("Displacement", "76-100") :=
  ⟨(get_phase_bands 25).1 (by norm_num),
   (get_phase_bands (251/10)).2.1 (by norm_num) (by norm_num),
   (get_phase_bands 75).2.2.1 (by norm_num) (by norm_num),
   (get_phase_bands (751/10)).2.2.2 (by norm_num)⟩

-- ---------------------------------------------------------------------------
-- C5: direction inversion is exactly complementary
-- ---------------------------------------------------------------------------

/-- C5: for every value and every non-degenerate range, normalizing with
the inverted (lower-is-worse) direction plus normalizing with the default
(higher-is-worse) direction equals exactly 100. -/
theorem normalize_directions_complementary (lo hi v : ℚ) (h : lo ≠ hi) :
    MockPhase4.normalize_range lo hi true v + MockPhase4.normalize_range lo hi false v
      = 100 := by
  have hne : ¬ hi = lo := fun hh => h hh.symm
  have hspan : hi - lo ≠ 0 := sub_ne_zero.mpr hne
  unfold MockPhase4.normalize_range
  simp only [if_neg hne]
  show max 0 (min 100 (roundTo 1 ((hi - v) / (hi - lo) * 100))) +
      max 0 (min 100 (roundTo 1 ((v - lo) / (hi - lo) * 100))) = 100
  have hkey : (hi - v) / (hi - lo) * 100 = 100 - (v - lo) / (hi - lo) * 100 := by
    field_simp
    ring
  rw [hkey, roundTo_hundred_sub]
  exact clamp_add_clamp_compl (roundTo 1 ((v - lo) / (hi - lo) * 100))

/-- C5 witness: the complementarity at the concrete range (0, 10) and
value 3. -/
theorem normalize_directions_complementary_witness :
    MockPhase4.normalize_range 0 10 true 3 + MockPhase4.normalize_range 0 10 false 3
      = 100 :=
  normalize_directions_complementary 0 10 3 (by norm_num)

-- ---------------------------------------------------------------------------
-- C4: normalized values always lie in [0, 100]
-- ---------------------------------------------------------------------------

/-- C4: for every range, both direction flags and every raw value -
including values strictly outside the range - the fixed-range normalizer
stays in [0, 100] (clamped, not extrapolated); so does normalize(key,
value) for each of the seven signals, and so does every point produced by
the observed-range normalize_series. -/
theorem normalize_bounded :
    (∀ (lo hi : ℚ) (invert : Bool) (v : ℚ),
      0 ≤ MockPhase4.normalize_range lo hi invert v ∧
        MockPhase4.normalize_range lo hi invert v ≤ 100) ∧
    (∀ (key : CompositeIndex.SignalKey) (v : ℚ),
      0 ≤ MockPhase4.normalize key v ∧ MockPhase4.normalize key v ≤ 100) ∧
    (∀ (values : List (String × ℚ)) (invert : Bool)
      (p : String × ℚ), p ∈ (CompositeIndex.normalize_series values invert).1 →
      0 ≤ p.2 ∧ p.2 ≤ 100) := by
  refine ⟨fun lo hi invert v => ⟨normalize_range_nonneg lo hi invert v,
      normalize_range_le lo hi invert v⟩,
    fun key v => ⟨normalize_range_nonneg _ _ _ v, normalize_range_le _ _ _ v⟩,
    fun values invert p hp => ?_⟩
  cases values with
  | nil => simp [CompositeIndex.normalize_series] at hp
  | cons v0 rest =>
    unfold CompositeIndex.normalize_series at hp
    simp only [List.mem_map] at hp
    obtain ⟨⟨d, x⟩, hmem, rfl⟩ := hp
    have hx : x ∈ ((v0 :: rest).map Prod.snd) := List.mem_map.mpr ⟨(d, x), hmem, rfl⟩
    have hlo : listMin ((v0 :: rest).map Prod.snd) ≤ x := listMin_le hx
    have hhi : x ≤ listMax ((v0 :: rest).map Prod.snd) := le_listMax hx
    set lo := listMin ((v0 :: rest).map Prod.snd)
    set hi := listMax ((v0 :: rest).map Prod.snd)
    by_cases hdeg : hi = lo
    · have hxhi : x = hi := le_antisymm hhi (hdeg ▸ hlo)
      have hxlo : x = lo := hxhi.trans hdeg
      rw [if_neg (fun hh : hi ≠ lo => hh hdeg)]
      cases invert with
      | false =>
        rw [if_neg (by simp)]
        rw [show x - lo = 0 by rw [hxlo]; ring]
        norm_num [roundTo_zero]
      | true =>
        rw [if_pos rfl]
        rw [show hi - x = 0 by rw [hxhi]; ring]
        norm_num [roundTo_zero]
    · have hlt : lo < hi := lt_of_le_of_ne (le_trans hlo hhi) (Ne.symm hdeg)
      have hspan : (0 : ℚ) < hi - lo := by linarith
      rw [if_pos hdeg]
      cases invert with
      | false =>
        rw [if_neg (by simp)]
        apply roundTo_mem_Icc
        · exact mul_nonneg (div_nonneg (by linarith) (by linarith)) (by norm_num)
        · rw [div_mul_eq_mul_div, div_le_iff₀ hspan]
          linarith
      | true =>
        rw [if_pos rfl]
        apply roundTo_mem_Icc
        · exact mul_nonneg (div_nonneg (by linarith) (by linarith)) (by norm_num)
        · rw [div_mul_eq_mul_div, div_le_iff₀ hspan]
          linarith

/-- C4 witness: concrete instances - a value far above the range clamps
to at most 100, the employment signal at a headcount below its range stays
in [0, 100], and the single point of a one-element series is in range. -/
theorem normalize_bounded_witness :
    (0 ≤ MockPhase4.normalize_range 0 10 false 250 ∧
      MockPhase4.normalize_range 0 10 false 250 ≤ 100) ∧
    (0 ≤ MockPhase4.normalize CompositeIndex.SignalKey.employment 1000 ∧
      MockPhase4.normalize CompositeIndex.SignalKey.employment 1000 ≤ 100) ∧
    (0 ≤ roundTo 1 0 ∧ roundTo 1 (0 : ℚ) ≤ 100) := by
  refine ⟨normalize_bounded.1 0 10 false 250,
    normalize_bounded.2.1 CompositeIndex.SignalKey.employment 1000, ?_⟩
  have h := normalize_bounded.2.2 [("2024-01", (7 : ℚ))] false
    ("2024-01", roundTo 1 (((7 : ℚ) - 7) / 1 * 100))
    (by simp [CompositeIndex.normalize_series, listMin, listMax])
  simpa using h

-- ---------------------------------------------------------------------------
-- C2: degenerate normalization range
-- ---------------------------------------------------------------------------

/-- C2 counterexample: the observed-range normalize_series maps a series
whose minimum equals its maximum to 0.0 at every point, not to the
midpoint 50.0 that the claim states. -/
theorem degenerate_series_counterexample :
    (CompositeIndex.normalize_series [("2024-01", (5 : ℚ)), ("2024-02", 5)] false).1 =
      [("2024-01", 0), ("2024-02", 0)] ∧ (0 : ℚ) ≠ 50 := by
  constructor
  · simp [CompositeIndex.normalize_series, listMin, listMax, roundTo_zero]
  · norm_num

/-- C2 (amended): the fixed-range normalizer returns the midpoint 50.0 on
a degenerate range (max = min) instead of dividing by zero; the
observed-range normalize_series, whose span falls back to 1 on a
degenerate range, instead maps every point of a constant series to 0. -/
theorem degenerate_range_normalization :
    (∀ (lo hi : ℚ) (invert : Bool) (v : ℚ), hi = lo →
      MockPhase4.normalize_range lo hi invert v = 50) ∧
    (∀ (values : List (String × ℚ)) (invert : Bool),
      listMin (values.map Prod.snd) = listMax (values.map Prod.snd) →
      ∀ p ∈ (CompositeIndex.normalize_series values invert).1, p.2 = 0) := by
  constructor
  · intro lo hi invert v h
    unfold MockPhase4.normalize_range
    rw [if_pos h]
  · intro values invert hminmax p hp
    cases values with
    | nil => simp [CompositeIndex.normalize_series] at hp
    | cons v0 rest =>
      unfold CompositeIndex.normalize_series at hp
      simp only [List.mem_map] at hp
      obtain ⟨⟨d, x⟩, hmem, rfl⟩ := hp
      have hx : x ∈ ((v0 :: rest).map Prod.snd) := List.mem_map.mpr ⟨(d, x), hmem, rfl⟩
      have hlo := listMin_le hx
      have hhi := le_listMax hx
      set lo := listMin ((v0 :: rest).map Prod.snd)
      set hi := listMax ((v0 :: rest).map Prod.snd)
      have hxlo : x = lo := le_antisymm (by rw [hminmax]; exact hhi) hlo
      have hdeg : hi = lo := hminmax.symm
      show (if invert = true
          then roundTo 1 ((hi - x) / (if hi ≠ lo then hi - lo else 1) * 100)
          else roundTo 1 ((x - lo) / (if hi ≠ lo then hi - lo else 1) * 100)) = 0
      rw [if_neg (fun hh : hi ≠ lo => hh hdeg)]
      cases invert with
      | false =>
        rw [if_neg (by simp), show x - lo = 0 by rw [hxlo]; ring]
        norm_num [roundTo_zero]
      | true =>
        rw [if_pos rfl, show hi - x = 0 by rw [hxlo, hdeg]; ring]
        norm_num [roundTo_zero]

/-- C2 witness: a degenerate fixed range (5, 5) yields 50 for value 7,
and the single point of the constant series [3] normalizes to 0. -/
theorem degenerate_range_normalization_witness :
    MockPhase4.normalize_range 5 5 true 7 = 50 ∧
    roundTo 1 (((3 : ℚ) - 3) / 1 * 100) = 0 := by
  constructor
  · exact degenerate_range_normalization.1 5 5 true 7 rfl
  · have h := degenerate_range_normalization.2 [("2024-01", (3 : ℚ))] false
      (by simp [listMin, listMax])
      ("2024-01", roundTo 1 (((3 : ℚ) - 3) / 1 * 100))
      (by simp [CompositeIndex.normalize_series, listMin, listMax])
    simpa using h

-- ---------------------------------------------------------------------------
-- C10: determinism of the composite pipeline
-- ---------------------------------------------------------------------------

/-- The signal-document state in which every input file is missing. -/
def emptyDocs : CompositeIndex.SignalDocs :=
  ⟨none, none, none, none, none, none, none⟩

/-- C10 counterexample: the output is not a function of the input
documents alone - the metadata's last_updated field holds the run date
(datetime.utcnow()), so the same inputs on two different days give
different output documents. -/
theorem composite_not_input_deterministic :
    CompositeIndex.compute_composite_from_signals emptyDocs "2026-02-26" ≠
      CompositeIndex.compute_composite_from_signals emptyDocs "2026-02-27" := by
  intro h
  have h2 := congrArg (fun c => c.metadata.last_updated) h
  simp only [CompositeIndex.compute_composite_from_signals] at h2
  exact absurd h2 (by decide)

/-- C10 (amended): every part of the output other than
metadata.last_updated is a deterministic function of the input documents
alone; metadata.last_updated equals the run date, so two runs give
byte-identical documents exactly when they happen on the same date. -/
theorem composite_deterministic_up_to_date (docs : CompositeIndex.SignalDocs)
    (t1 t2 : String) :
    (CompositeIndex.compute_composite_from_signals docs t1).monthly =
      (CompositeIndex.compute_composite_from_signals docs t2).monthly ∧
    (CompositeIndex.compute_composite_from_signals docs t1).weights =
      (CompositeIndex.compute_composite_from_signals docs t2).weights ∧
    (CompositeIndex.compute_composite_from_signals docs t1).events =
      (CompositeIndex.compute_composite_from_signals docs t2).events ∧
    (CompositeIndex.compute_composite_from_signals docs t1).metadata.source =
      (CompositeIndex.compute_composite_from_signals docs t2).metadata.source ∧
    (CompositeIndex.compute_composite_from_signals docs t1).metadata.mock =
      (CompositeIndex.compute_composite_from_signals docs t2).metadata.mock ∧
    (CompositeIndex.compute_composite_from_signals docs t1).metadata.version =
      (CompositeIndex.compute_composite_from_signals docs t2).metadata.version ∧
    (CompositeIndex.compute_composite_from_signals docs t1).metadata.last_updated = t1 ∧
    (CompositeIndex.compute_composite_from_signals docs t1 =
      CompositeIndex.compute_composite_from_signals docs t2 ↔ t1 = t2) := by
  refine ⟨rfl, rfl, rfl, rfl, rfl, rfl, rfl, ⟨fun h => ?_, fun h => by rw [h]⟩⟩
  have h2 := congrArg (fun c => c.metadata.last_updated) h
  simpa only [CompositeIndex.compute_composite_from_signals] using h2

-- ---------------------------------------------------------------------------
-- C3: a missing signal file degrades to zero, the pipeline completes
-- ---------------------------------------------------------------------------

/-- The component entry mkComponents builds for a key, spelled out. -/
theorem dget_mkComponents (raw norm : CompositeIndex.SignalKey → List (String × ℚ))
    (date_label : String) (k : CompositeIndex.SignalKey) :
    dget (CompositeIndex.mkComponents raw norm date_label) k =
      some ⟨dgetD (raw k) date_label 0, dgetD (norm k) date_label 0,
        roundTo 2 (dgetD (norm k) date_label 0 * dgetD CompositeIndex.WEIGHTS k 0)⟩ := by
  cases k <;> rfl

theorem mkComponents_keys (raw norm : CompositeIndex.SignalKey → List (String × ℚ))
    (date_label : String) :
    (CompositeIndex.mkComponents raw norm date_label).map Prod.fst =
      CompositeIndex.SIGNALS := by
  unfold CompositeIndex.mkComponents
  rw [List.map_map]
  rfl

theorem buildMonthly_length (raw norm : CompositeIndex.SignalKey → List (String × ℚ)) :
    ∀ (dates : List String) (prev : Option ℚ),
      (CompositeIndex.buildMonthly raw norm dates prev).length = dates.length := by
  intro dates
  induction dates with
  | nil => intro prev; rfl
  | cons d rest ih =>
    intro prev
    simp [CompositeIndex.buildMonthly, ih]

/-- The record-level check for C3: the given signal contributes a fully
zeroed component (raw 0, normalized 0, weighted 0), and all seven signals
are present in the record's components map. -/
def component_zeroed (k : CompositeIndex.SignalKey) (r : CompositeIndex.MonthlyRecord) :
    Bool :=
  decide (dget r.components k = some ⟨0, 0, 0⟩) &&
    decide (r.components.map Prod.fst = CompositeIndex.SIGNALS)

theorem buildMonthly_all_zeroed (raw norm : CompositeIndex.SignalKey → List (String × ℚ))
    (k : CompositeIndex.SignalKey) (hr : raw k = []) (hn : norm k = []) :
    ∀ (dates : List String) (prev : Option ℚ),
      ((CompositeIndex.buildMonthly raw norm dates prev).all (component_zeroed k)) = true := by
  intro dates
  induction dates with
  | nil => intro prev; rfl
  | cons d rest ih =>
    intro prev
    simp only [CompositeIndex.buildMonthly, List.all_cons, Bool.and_eq_true]
    refine ⟨?_, ih _⟩
    unfold component_zeroed
    simp only [Bool.and_eq_true, decide_eq_true_eq]
    constructor
    · rw [dget_mkComponents, hr, hn]
      simp [dgetD, dget, roundTo_zero]
    · exact mkComponents_keys raw norm d

/-- data[key] is None: the input document for the given signal is absent. -/
def signal_doc_missing (docs : CompositeIndex.SignalDocs) :
    CompositeIndex.SignalKey → Prop
  | .employment => docs.employment = none
  | .rev_per_employee => docs.rev_per_employee = none
  | .vc_funding => docs.vc_funding = none
  | .job_ratio => docs.job_ratio = none
  | .trends => docs.trends = none
  | .github => docs.github = none
  | .regulatory => docs.regulatory = none

/-- C3: if a signal's input document is absent, its extraction is the
empty map, the pipeline still completes with a composite record for each
of the 38 months of the output window, and in every record that signal
contributes a zero component (raw 0, normalized 0, weighted 0) while all
seven component entries are present. -/
theorem missing_signal_degrades (docs : CompositeIndex.SignalDocs) (today : String)
    (k : CompositeIndex.SignalKey) (h : signal_doc_missing docs k) :
    CompositeIndex.raw_series docs k = [] ∧
    (CompositeIndex.compute_composite_from_signals docs today).monthly.length = 38 ∧
    ((CompositeIndex.compute_composite_from_signals docs today).monthly.all
      (component_zeroed k)) = true := by
  have hraw : CompositeIndex.raw_series docs k = [] := by
    cases k with
    | employment =>
      have h' : docs.employment = none := h
      simp [CompositeIndex.raw_series, h', CompositeIndex.extract_monthly_employment]
    | rev_per_employee =>
      have h' : docs.rev_per_employee = none := h
      simp [CompositeIndex.raw_series, h', CompositeIndex.extract_monthly_rev_per_employee]
    | vc_funding =>
      have h' : docs.vc_funding = none := h
      simp [CompositeIndex.raw_series, h', CompositeIndex.extract_monthly_vc_funding]
    | job_ratio =>
      have h' : docs.job_ratio = none := h
      simp [CompositeIndex.raw_series, h', CompositeIndex.extract_monthly_job_ratio]
    | trends =>
      have h' : docs.trends = none := h
      simp [CompositeIndex.raw_series, h', CompositeIndex.extract_monthly_trends]
    | github =>
      have h' : docs.github = none := h
      simp [CompositeIndex.raw_series, h', CompositeIndex.extract_monthly_github]
    | regulatory =>
      have h' : docs.regulatory = none := h
      simp [CompositeIndex.raw_series, h', CompositeIndex.extract_monthly_regulatory]
  refine ⟨hraw, ?_, ?_⟩
  · show (CompositeIndex.buildMonthly (CompositeIndex.raw_series docs)
      (fun key => (CompositeIndex.normalize_series (CompositeIndex.raw_series docs key)
        (decide (key = CompositeIndex.SignalKey.employment))).1)
      CompositeIndex.MONTHS none).length = 38
    rw [buildMonthly_length]
    decide
  · have hn : (fun key => (CompositeIndex.normalize_series
        (CompositeIndex.raw_series docs key)
        (decide (key = CompositeIndex.SignalKey.employment))).1) k = [] := by
      show (CompositeIndex.normalize_series (CompositeIndex.raw_series docs k)
        (decide (k = CompositeIndex.SignalKey.employment))).1 = []
      rw [hraw]
      rfl
    exact buildMonthly_all_zeroed (CompositeIndex.raw_series docs) _ k hraw hn
      CompositeIndex.MONTHS none

/-- C3 witness: with every input document absent, the employment signal
extracts to the empty map and the 38 monthly records all carry a zeroed
employment component with all seven components present. -/
theorem missing_signal_degrades_witness :
    CompositeIndex.raw_series emptyDocs CompositeIndex.SignalKey.employment = [] ∧
    (CompositeIndex.compute_composite_from_signals emptyDocs "2026-02-26").monthly.length
      = 38 ∧
    ((CompositeIndex.compute_composite_from_signals emptyDocs "2026-02-26").monthly.all
      (component_zeroed CompositeIndex.SignalKey.employment)) = true :=
  missing_signal_degrades emptyDocs "2026-02-26" CompositeIndex.SignalKey.employment rfl

-- ---------------------------------------------------------------------------
-- C8: trend classification
-- ---------------------------------------------------------------------------

/-- The trend rule as the spec words it: the first month (no predecessor)
is flat; afterwards, up when the score exceeds the previous month's by
more than 0.5, down when it is lower by more than 0.5, else flat. -/
def trendsOf : Option ℚ → List ℚ → List String
  | _, [] => []
  | prev, s :: rest =>
    (match prev with
     | none => "flat"
     | some p => if p + 1/2 < s then "up" else if s < p - 1/2 then "down" else "flat")
      :: trendsOf (some s) rest

theorem buildMonthly_trend_spec (raw norm : CompositeIndex.SignalKey → List (String × ℚ)) :
    ∀ (dates : List String) (prev : Option ℚ),
      (CompositeIndex.buildMonthly raw norm dates prev).map (fun r => r.trend) =
        trendsOf prev
          ((CompositeIndex.buildMonthly raw norm dates prev).map (fun r => r.score)) := by
  intro dates
  induction dates with
  | nil => intro prev; rfl
  | cons d rest ih =>
    intro prev
    simp only [CompositeIndex.buildMonthly, List.map_cons, trendsOf]
    exact congrArg₂ List.cons rfl (ih _)

theorem buildMonthly_head_flat (raw norm : CompositeIndex.SignalKey → List (String × ℚ)) :
    ∀ (dates : List String), dates ≠ [] →
      ((CompositeIndex.buildMonthly raw norm dates none).head?.map
        (fun r => r.trend)) = some "flat" := by
  intro dates h
  cases dates with
  | nil => exact absurd rfl h
  | cons d rest => rfl

/-- C8: in the composite output, every month's trend is the spec's rule
applied to its own and the previous month's score, the first month is
always flat, and the concrete score sequence [40.0, 40.3, 39.2] yields
trends [flat, flat, down]. -/
theorem trend_classification (docs : CompositeIndex.SignalDocs) (today : String) :
    ((CompositeIndex.compute_composite_from_signals docs today).monthly.map
        (fun r => r.trend) =
      trendsOf none
        ((CompositeIndex.compute_composite_from_signals docs today).monthly.map
          (fun r => r.score))) ∧
    ((CompositeIndex.compute_composite_from_signals docs today).monthly.head?.map
        (fun r => r.trend) = some "flat") ∧
    trendsOf none [40, 403/10, 392/10] = ["flat", "flat", "down"] := by
  refine ⟨?_, ?_, ?_⟩
  · exact buildMonthly_trend_spec _ _ CompositeIndex.MONTHS none
  · exact buildMonthly_head_flat _ _ CompositeIndex.MONTHS (by decide)
  · norm_num [trendsOf]

-- ---------------------------------------------------------------------------
-- C6: quarterly-to-monthly expansion policies
-- ---------------------------------------------------------------------------

/-- C6: a quarterly value is assigned to the quarter's three months -
VC funding under the distribute policy (each month gets the quarterly
total divided by 3, so the three months sum back to the total), and the
regulatory cumulative count and revenue-per-employee under the replicate
policy (each month gets the identical value); concretely, 90.0 for
2024-Q1 expands to 30.0 for each of 2024-01, 2024-02 and 2024-03. -/
theorem quarterly_expansion :
    (∀ (year qn : ℤ) (f : ℚ),
      dget (CompositeIndex.extract_monthly_vc_funding
          (some ⟨some [⟨some (year, qn), some f⟩]⟩))
          (CompositeIndex.dateStr year ((qn - 1) * 3 + 1)) = some (f / 3) ∧
      dget (CompositeIndex.extract_monthly_vc_funding
          (some ⟨some [⟨some (year, qn), some f⟩]⟩))
          (CompositeIndex.dateStr year ((qn - 1) * 3 + 2)) = some (f / 3) ∧
      dget (CompositeIndex.extract_monthly_vc_funding
          (some ⟨some [⟨some (year, qn), some f⟩]⟩))
          (CompositeIndex.dateStr year ((qn - 1) * 3 + 3)) = some (f / 3) ∧
      f / 3 + f / 3 + f / 3 = f) ∧
    (∀ (year qn : ℤ) (c : ℚ),
      dget (CompositeIndex.extract_monthly_regulatory
          (some ⟨some [⟨some (year, qn), some c⟩]⟩))
          (CompositeIndex.dateStr year ((qn - 1) * 3 + 1)) = some c ∧
      dget (CompositeIndex.extract_monthly_regulatory
          (some ⟨some [⟨some (year, qn), some c⟩]⟩))
          (CompositeIndex.dateStr year ((qn - 1) * 3 + 2)) = some c ∧
      dget (CompositeIndex.extract_monthly_regulatory
          (some ⟨some [⟨some (year, qn), some c⟩]⟩))
          (CompositeIndex.dateStr year ((qn - 1) * 3 + 3)) = some c) ∧
    (∀ (year qn : ℤ) (r : ℚ),
      dget (CompositeIndex.extract_monthly_rev_per_employee
          (some ⟨some [⟨some (year, qn), some r⟩]⟩))
          (CompositeIndex.dateStr year ((qn - 1) * 3 + 1)) = some r ∧
      dget (CompositeIndex.extract_monthly_rev_per_employee
          (some ⟨some [⟨some (year, qn), some r⟩]⟩))
          (CompositeIndex.dateStr year ((qn - 1) * 3 + 2)) = some r ∧
      dget (CompositeIndex.extract_monthly_rev_per_employee
          (some ⟨some [⟨some (year, qn), some r⟩]⟩))
          (CompositeIndex.dateStr year ((qn - 1) * 3 + 3)) = some r) ∧
    (CompositeIndex.extract_monthly_vc_funding
        (some ⟨some [⟨some (2024, 1), some 90⟩]⟩) =
      [("2024-01", 30), ("2024-02", 30), ("2024-03", 30)]) := by
  refine ⟨fun year qn f => ⟨?_, ?_, ?_, by ring⟩,
    fun year qn c => ⟨?_, ?_, ?_⟩, fun year qn r => ⟨?_, ?_, ?_⟩, ?_⟩
  · exact dget_dinsert_preserve _ _ _ _
      (dget_dinsert_preserve _ _ _ _ (dget_dinsert_self _ _ _))
  · exact dget_dinsert_preserve _ _ _ _ (dget_dinsert_self _ _ _)
  · exact dget_dinsert_self _ _ _
  · exact dget_dinsert_preserve _ _ _ _
      (dget_dinsert_preserve _ _ _ _ (dget_dinsert_self _ _ _))
  · exact dget_dinsert_preserve _ _ _ _ (dget_dinsert_self _ _ _)
  · exact dget_dinsert_self _ _ _
  · exact dget_dinsert_preserve _ _ _ _
      (dget_dinsert_preserve _ _ _ _ (dget_dinsert_self _ _ _))
  · exact dget_dinsert_preserve _ _ _ _ (dget_dinsert_self _ _ _)
  · exact dget_dinsert_self _ _ _
  · have hv : (Option.getD (some (90 : ℚ)) 0) / 3 = 30 := by norm_num
    simp only [CompositeIndex.extract_monthly_vc_funding, List.foldl, hv]
    decide

-- ---------------------------------------------------------------------------
-- C1: relabeling index and flag
-- ---------------------------------------------------------------------------

namespace EarningsNormalizer

/-- The relabeling rule as the spec words it, amended with the rounding
the code applies: with g_ai and g_tot the AI and total revenue growth
rates against the previous quarter, the index is max(0, g_ai / g_tot)
when |g_tot| > 0.001, else max(0, g_ai * 100) if g_ai > 0 and 0
otherwise, rounded to two decimal places; the flag holds exactly when the
stored (rounded) index exceeds 3.0. First quarter or null ai_revenue:
(none, false). -/
def claimRelabel (prev : Option QuarterEntry) (q : QuarterEntry) : Option ℚ × Bool :=
  match prev, q.ai_revenue_mm with
  | some p, some _ =>
    let g_ai := compute_growth_rate (q.ai_revenue_mm.getD 0) (p.ai_revenue_mm.getD 0)
    let g_tot := compute_growth_rate (q.total_revenue_mm.getD 0) (p.total_revenue_mm.getD 0)
    let idx := if 1/1000 < |g_tot| then max 0 (g_ai / g_tot)
      else if 0 < g_ai then max 0 (g_ai * 100) else 0
    let r := roundTo 2 idx
    (some r, decide (3 < r))
  | _, _ => (none, false)

theorem normalize_entry_relabel (prev : Option QuarterEntry) (q : QuarterEntry) :
    ((normalize_entry prev q).relabeling_index, (normalize_entry prev q).relabeling_flag) =
      claimRelabel prev q := by
  cases prev with
  | none =>
    cases hq : q.ai_revenue_mm <;>
      simp [normalize_entry, claimRelabel, hq]
  | some p =>
    cases hq : q.ai_revenue_mm with
    | none => simp [normalize_entry, claimRelabel, hq]
    | some a =>
      simp only [normalize_entry, claimRelabel, hq, RELABELING_THRESHOLD]
      have hidx : max 0 (if 1/1000 < |compute_growth_rate (q.total_revenue_mm.getD 0)
            (p.total_revenue_mm.getD 0)| then
          compute_growth_rate (q.ai_revenue_mm.getD 0) (p.ai_revenue_mm.getD 0) /
            compute_growth_rate (q.total_revenue_mm.getD 0) (p.total_revenue_mm.getD 0)
        else if 0 < compute_growth_rate (q.ai_revenue_mm.getD 0) (p.ai_revenue_mm.getD 0)
          then |compute_growth_rate (q.ai_revenue_mm.getD 0) (p.ai_revenue_mm.getD 0)| * 100
          else 0) =
        (if 1/1000 < |compute_growth_rate (q.total_revenue_mm.getD 0)
            (p.total_revenue_mm.getD 0)| then
          max 0 (compute_growth_rate (q.ai_revenue_mm.getD 0) (p.ai_revenue_mm.getD 0) /
            compute_growth_rate (q.total_revenue_mm.getD 0) (p.total_revenue_mm.getD 0))
        else if 0 < compute_growth_rate (q.ai_revenue_mm.getD 0) (p.ai_revenue_mm.getD 0)
          then max 0 (compute_growth_rate (q.ai_revenue_mm.getD 0)
            (p.ai_revenue_mm.getD 0) * 100)
          else 0) := by
        split_ifs with h1 h2
        · rfl
        · rw [abs_of_pos h2, max_eq_right (by positivity)]
        · exact max_self 0
      rw [hq] at hidx
      rw [hidx]

theorem normalize_firm_aux_getElem? (data : List QuarterEntry) :
    ∀ (prev : Option QuarterEntry) (i : ℕ),
      (normalize_firm_aux prev data)[i]? =
        (data[i]?).map (normalize_entry (if i = 0 then prev else data[i - 1]?)) := by
  induction data with
  | nil => intro prev i; simp [normalize_firm_aux]
  | cons q rest ih =>
    intro prev i
    cases i with
    | zero => simp [normalize_firm_aux]
    | succ n =>
      simp only [normalize_firm_aux, List.getElem?_cons_succ]
      rw [ih (some q) n]
      cases n <;> simp

end EarningsNormalizer

/-- C1 (amended): for every firm series and index i, the relabeling
fields of the i-th normalized entry are exactly the spec's rule - growth
ratio when the total moved, times-100 fallback when flat, null/false for
the first quarter or a null ai_revenue - except that the stored index is
rounded to two decimal places and the flag compares that rounded value
with 3.0. -/
theorem relabeling_index_spec (data : List EarningsNormalizer.QuarterEntry) (i : ℕ)
    (q : EarningsNormalizer.QuarterEntry) (hq : data[i]? = some q) :
    ((EarningsNormalizer.normalize_firm data)[i]?).map
        (fun e => (e.relabeling_index, e.relabeling_flag)) =
      some (EarningsNormalizer.claimRelabel
        (if i = 0 then none else data[i - 1]?) q) := by
  unfold EarningsNormalizer.normalize_firm
  rw [EarningsNormalizer.normalize_firm_aux_getElem?, hq]
  simp [EarningsNormalizer.normalize_entry_relabel]

/-- C1 witness: the claim's two examples - prev (ai 100, total 1000) to
curr (ai 150, total 1010) gives index 50.0 with the flag set, and prev
(ai 10, total 500) to curr (ai 20, total 500) (flat total) gives the
fallback index 100.0. -/
theorem relabeling_index_spec_witness :
    ((EarningsNormalizer.normalize_firm
        [⟨"2025-Q1", some 1000, some 100, none⟩, ⟨"2025-Q2", some 1010, some 150, none⟩])[1]?).map
        (fun e => (e.relabeling_index, e.relabeling_flag)) = some (some 50, true) ∧
    ((EarningsNormalizer.normalize_firm
        [⟨"2025-Q1", some 500, some 10, none⟩, ⟨"2025-Q2", some 500, some 20, none⟩])[1]?).map
        (fun e => (e.relabeling_index, e.relabeling_flag)) = some (some 100, true) := by
  constructor
  · rw [relabeling_index_spec _ 1 ⟨"2025-Q2", some 1010, some 150, none⟩ rfl]
    show some (EarningsNormalizer.claimRelabel (some ⟨"2025-Q1", some 1000, some 100, none⟩)
      ⟨"2025-Q2", some 1010, some 150, none⟩) = some (some 50, true)
    have hg1 : EarningsNormalizer.compute_growth_rate 150 100 = 1/2 := by
      rw [EarningsNormalizer.compute_growth_rate, if_neg (by norm_num)]
      norm_num
    have hg2 : EarningsNormalizer.compute_growth_rate 1010 1000 = 1/100 := by
      rw [EarningsNormalizer.compute_growth_rate, if_neg (by norm_num)]
      norm_num
    simp only [EarningsNormalizer.claimRelabel, Option.getD_some, hg1, hg2]
    rw [if_pos (show (1:ℚ)/1000 < |1/100| by rw [abs_of_pos (by norm_num : (0:ℚ) < 1/100)]; norm_num),
      show (0 : ℚ) ⊔ (1/2 / (1/100)) = 50 by norm_num,
      roundTo_eq_self (m := 5000) (by norm_num)]
    norm_num
  · rw [relabeling_index_spec _ 1 ⟨"2025-Q2", some 500, some 20, none⟩ rfl]
    show some (EarningsNormalizer.claimRelabel (some ⟨"2025-Q1", some 500, some 10, none⟩)
      ⟨"2025-Q2", some 500, some 20, none⟩) = some (some 100, true)
    have hg1 : EarningsNormalizer.compute_growth_rate 20 10 = 1 := by
      rw [EarningsNormalizer.compute_growth_rate, if_neg (by norm_num)]
      norm_num
    have hg2 : EarningsNormalizer.compute_growth_rate 500 500 = 0 := by
      rw [EarningsNormalizer.compute_growth_rate, if_neg (by norm_num)]
      norm_num
    simp only [EarningsNormalizer.claimRelabel, Option.getD_some, hg1, hg2]
    rw [if_neg (show ¬ ((1:ℚ)/1000 < |0|) by rw [abs_zero]; norm_num),
      if_pos (show (0:ℚ) < 1 by norm_num),
      show (0 : ℚ) ⊔ (1 * 100) = 100 by norm_num,
      roundTo_eq_self (m := 10000) (by norm_num)]
    norm_num

/-- C1 counterexample: the claim's exact equality fails because the code
rounds - for prev (ai 3, total 100) to curr (ai 4, total 110), g_ai = 1/3
and g_tot = 1/10, so the claim's formula gives 10/3, but the stored
relabeling_index is round(10/3, 2) = 3.33, which is not 10/3. -/
theorem relabeling_index_not_exact :
    ((EarningsNormalizer.normalize_firm
        [⟨"2025-Q1", some 100, some 3, none⟩, ⟨"2025-Q2", some 110, some 4, none⟩])[1]?).map
        (fun e => e.relabeling_index) = some (some (333/100)) ∧
    (333/100 : ℚ) ≠ max 0 (EarningsNormalizer.compute_growth_rate 4 3 /
      EarningsNormalizer.compute_growth_rate 110 100) := by
  have hg1 : EarningsNormalizer.compute_growth_rate 4 3 = 1/3 := by
    rw [EarningsNormalizer.compute_growth_rate, if_neg (by norm_num)]
    norm_num
  have hg2 : EarningsNormalizer.compute_growth_rate 110 100 = 1/10 := by
    rw [EarningsNormalizer.compute_growth_rate, if_neg (by norm_num)]
    norm_num
  constructor
  · show (some ((EarningsNormalizer.normalize_entry (some ⟨"2025-Q1", some 100, some 3, none⟩)
        ⟨"2025-Q2", some 110, some 4, none⟩).relabeling_index) : Option (Option ℚ)) =
      some (some (333/100))
    simp only [EarningsNormalizer.normalize_entry, Option.getD_some, hg1, hg2]
    rw [if_pos (show (1:ℚ)/1000 < |1/10| by
        rw [abs_of_pos (by norm_num : (0:ℚ) < 1/10)]; norm_num),
      show (0 : ℚ) ⊔ (1/3 / (1/10)) = 10/3 by norm_num,
      roundTo_eq_down (m := 333) (by norm_num) (by norm_num)]
    norm_num
  · rw [hg1, hg2]
    norm_num

-- ---------------------------------------------------------------------------
-- C9: per-quarter aggregation across firms
-- ---------------------------------------------------------------------------

theorem foldl_add_eq_sum (l : List ℚ) : ∀ a : ℚ, l.foldl (· + ·) a = a + l.sum := by
  induction l with
  | nil => intro a; simp
  | cons x xs ih =>
    intro a
    simp only [List.foldl_cons, List.sum_cons, ih]
    ring

namespace EarningsNormalizer

/-- A normalized entry whose flag agrees with its stored index: the flag
holds exactly when the index is present and exceeds the threshold. This
is exactly what normalize_firm guarantees. -/
def flag_consistent (e : NormalizedEntry) : Prop :=
  e.relabeling_flag = (match e.relabeling_index with
    | some v => decide (RELABELING_THRESHOLD < v)
    | none => false)

theorem normalize_entry_flag_consistent (prev : Option QuarterEntry) (q : QuarterEntry) :
    flag_consistent (normalize_entry prev q) := by
  cases prev <;> cases hq : q.ai_revenue_mm <;>
    simp [normalize_entry, hq, flag_consistent]

theorem normalize_firm_flag_consistent (data : List QuarterEntry) :
    ∀ e ∈ normalize_firm data, flag_consistent e := by
  unfold normalize_firm
  generalize (none : Option QuarterEntry) = prev
  induction data generalizing prev with
  | nil => intro e he; simp [normalize_firm_aux] at he
  | cons q rest ih =>
    intro e he
    simp only [normalize_firm_aux, List.mem_cons] at he
    rcases he with rfl | he
    · exact normalize_entry_flag_consistent prev q
    · exact ih (some q) e he

theorem flagged_count_eq (l : List NormalizedEntry) (h : ∀ e ∈ l, flag_consistent e) :
    ((l.filterMap (fun e => e.relabeling_index)).filter
      (fun idx => decide (RELABELING_THRESHOLD < idx))).length =
    (l.filter (fun e => e.relabeling_flag)).length := by
  induction l with
  | nil => rfl
  | cons e rest ih =>
    have he := h e (List.mem_cons_self e rest)
    have hrest : ∀ x ∈ rest, flag_consistent x :=
      fun x hx => h x (List.mem_cons_of_mem e hx)
    unfold flag_consistent at he
    cases hidx : e.relabeling_index with
    | none =>
      rw [hidx] at he
      simp [List.filterMap_cons, hidx, List.filter_cons, he, ih hrest]
    | some v =>
      rw [hidx] at he
      by_cases hv : RELABELING_THRESHOLD < v
      · simp [List.filterMap_cons, hidx, List.filter_cons, he, hv, ih hrest]
      · simp [List.filterMap_cons, hidx, List.filter_cons, he, hv, ih hrest]

end EarningsNormalizer

/-- C9 (amended): the per-quarter aggregate averages each of ai_pct,
relabeling_index and revenue_per_employee over exactly the firms with a
non-null value (null firms excluded from the sum and the divisor, a null
average when no firm contributes); firms_flagged_relabeling counts the
contributing entries whose stored relabeling_index exceeds 3, which
equals the count of firms with relabeling_flag set whenever the flags are
consistent with the indices - as every normalize_firm output is; and
total_ai_revenue_mm is the sum of the non-null ai_revenue values when
that sum is positive and null otherwise (so it is null not only when no
firm reports, but also whenever the reported values sum to ≤ 0). -/
theorem aggregate_semantics (firms : List (String × EarningsNormalizer.Firm))
    (q_label : String) :
    ((EarningsNormalizer.quarter_entries firms q_label).filterMap
        (fun e => e.ai_pct) = [] →
      (EarningsNormalizer.aggregate_for firms q_label).avg_ai_pct = none) ∧
    ((EarningsNormalizer.quarter_entries firms q_label).filterMap
        (fun e => e.ai_pct) ≠ [] →
      (EarningsNormalizer.aggregate_for firms q_label).avg_ai_pct =
        some (roundTo 1
          (((EarningsNormalizer.quarter_entries firms q_label).filterMap
              (fun e => e.ai_pct)).sum /
            ((EarningsNormalizer.quarter_entries firms q_label).filterMap
              (fun e => e.ai_pct)).length))) ∧
    ((EarningsNormalizer.quarter_entries firms q_label).filterMap
        (fun e => e.relabeling_index) = [] →
      (EarningsNormalizer.aggregate_for firms q_label).avg_relabeling_index = none) ∧
    ((EarningsNormalizer.quarter_entries firms q_label).filterMap
        (fun e => e.relabeling_index) ≠ [] →
      (EarningsNormalizer.aggregate_for firms q_label).avg_relabeling_index =
        some (roundTo 1
          (((EarningsNormalizer.quarter_entries firms q_label).filterMap
              (fun e => e.relabeling_index)).sum /
            ((EarningsNormalizer.quarter_entries firms q_label).filterMap
              (fun e => e.relabeling_index)).length))) ∧
    ((EarningsNormalizer.quarter_entries firms q_label).filterMap
        (fun e => e.revenue_per_employee) = [] →
      (EarningsNormalizer.aggregate_for firms q_label).avg_rev_per_employee = none) ∧
    ((EarningsNormalizer.quarter_entries firms q_label).filterMap
        (fun e => e.revenue_per_employee) ≠ [] →
      (EarningsNormalizer.aggregate_for firms q_label).avg_rev_per_employee =
        some (roundTo 1
          (((EarningsNormalizer.quarter_entries firms q_label).filterMap
              (fun e => e.revenue_per_employee)).sum /
            ((EarningsNormalizer.quarter_entries firms q_label).filterMap
              (fun e => e.revenue_per_employee)).length))) ∧
    ((EarningsNormalizer.aggregate_for firms q_label).firms_flagged_relabeling =
      (((EarningsNormalizer.quarter_entries firms q_label).filterMap
          (fun e => e.relabeling_index)).filter (fun v => decide ((3 : ℚ) < v))).length) ∧
    ((∀ e ∈ EarningsNormalizer.quarter_entries firms q_label,
        EarningsNormalizer.flag_consistent e) →
      (EarningsNormalizer.aggregate_for firms q_label).firms_flagged_relabeling =
        ((EarningsNormalizer.quarter_entries firms q_label).filter
          (fun e => e.relabeling_flag)).length) ∧
    ((EarningsNormalizer.aggregate_for firms q_label).total_ai_revenue_mm =
      (if 0 < ((EarningsNormalizer.quarter_entries firms q_label).filterMap
          (fun e => e.ai_revenue_mm)).sum
        then some (((EarningsNormalizer.quarter_entries firms q_label).filterMap
          (fun e => e.ai_revenue_mm)).sum)
        else none)) ∧
    (∀ a ∈ EarningsNormalizer.compute_aggregate firms,
      a = EarningsNormalizer.aggregate_for firms a.quarter) ∧
    (∀ (data : List EarningsNormalizer.QuarterEntry)
      (e : EarningsNormalizer.NormalizedEntry),
      e ∈ EarningsNormalizer.normalize_firm data → EarningsNormalizer.flag_consistent e) := by
  have hsum : ∀ l : List ℚ, l.foldl (· + ·) 0 = l.sum := by
    intro l
    rw [foldl_add_eq_sum]
    ring
  refine ⟨fun h => ?_, fun h => ?_, fun h => ?_, fun h => ?_, fun h => ?_, fun h => ?_,
    ?_, fun h => ?_, ?_, fun a ha => ?_,
    fun data e he => EarningsNormalizer.normalize_firm_flag_consistent data e he⟩
  · simp only [EarningsNormalizer.aggregate_for]
    rw [if_pos (by simpa [List.isEmpty_iff] using h)]
  · simp only [EarningsNormalizer.aggregate_for]
    rw [if_neg (by simpa [List.isEmpty_iff] using h), hsum]
  · simp only [EarningsNormalizer.aggregate_for]
    rw [if_pos (by simpa [List.isEmpty_iff] using h)]
  · simp only [EarningsNormalizer.aggregate_for]
    rw [if_neg (by simpa [List.isEmpty_iff] using h), hsum]
  · simp only [EarningsNormalizer.aggregate_for]
    rw [if_pos (by simpa [List.isEmpty_iff] using h)]
  · simp only [EarningsNormalizer.aggregate_for]
    rw [if_neg (by simpa [List.isEmpty_iff] using h), hsum]
  · rfl
  · simp only [EarningsNormalizer.aggregate_for]
    exact EarningsNormalizer.flagged_count_eq _ h
  · simp only [EarningsNormalizer.aggregate_for]
    rw [hsum]
  · simp only [EarningsNormalizer.compute_aggregate, List.mem_map] at ha
    obtain ⟨q, hq, rfl⟩ := ha
    rfl

/-- The fixture for the C9 witness: one firm, one quarter, with all
derived fields present and the relabeling flag set consistently. -/
def exEntry9 : EarningsNormalizer.NormalizedEntry :=
  ⟨"2025-Q1", some 200, some 10, some 5, some 5, some 40000, some 4, true⟩

def exFirms9 : List (String × EarningsNormalizer.Firm) :=
  [("ACME", ⟨"Acme Corp", [exEntry9]⟩)]

/-- C9 witness: on the one-firm fixture, the quarter with data averages
the single ai_pct (5), a quarter with no data yields a null average, and
exactly one contributing firm is flagged. -/
theorem aggregate_semantics_witness :
    (EarningsNormalizer.aggregate_for exFirms9 "2025-Q1").avg_ai_pct = some 5 ∧
    (EarningsNormalizer.aggregate_for exFirms9 "2099-Q9").avg_ai_pct = none ∧
    (EarningsNormalizer.aggregate_for exFirms9 "2025-Q1").firms_flagged_relabeling = 1 := by
  refine ⟨?_, ?_, ?_⟩
  · have h := (aggregate_semantics exFirms9 "2025-Q1").2.1 (by decide)
    have hp : (EarningsNormalizer.quarter_entries exFirms9 "2025-Q1").filterMap
        (fun e => e.ai_pct) = [5] := by decide
    rw [h, hp]
    simp only [List.sum_cons, List.sum_nil, List.length_cons, List.length_nil]
    rw [show ((5 : ℚ) + 0) / (0 + 1 : ℕ) = 5 by norm_num,
      roundTo_eq_self (m := 50) (by norm_num)]
  · exact (aggregate_semantics exFirms9 "2099-Q9").1 (by decide)
  · have hq : EarningsNormalizer.quarter_entries exFirms9 "2025-Q1" = [exEntry9] := by
      decide
    have h := (aggregate_semantics exFirms9 "2025-Q1").2.2.2.2.2.2.2.1 (by
      rw [hq]
      intro e he
      rw [List.mem_singleton] at he
      subst he
      exact rfl)
    rw [h]
    decide

/-- C9 counterexample: a firm that reports an ai_revenue of 0 for the
quarter still leaves total_ai_revenue_mm null, so the total is not "null
exactly when no firm reports an ai_revenue" - here a firm reports one and
the total is null anyway (and it also does not equal the sum, 0). -/
def exEntryZero : EarningsNormalizer.NormalizedEntry :=
  ⟨"2025-Q1", some 100, some 0, none, some 0, none, none, false⟩

def exFirmsZero : List (String × EarningsNormalizer.Firm) :=
  [("ZCO", ⟨"Zero AI Corp", [exEntryZero]⟩)]

theorem total_ai_revenue_counterexample :
    (EarningsNormalizer.aggregate_for exFirmsZero "2025-Q1").total_ai_revenue_mm = none ∧
    (EarningsNormalizer.quarter_entries exFirmsZero "2025-Q1").filterMap
      (fun e => e.ai_revenue_mm) = [(0 : ℚ)] ∧
    (none : Option ℚ) ≠ some 0 := by
  refine ⟨?_, by decide, by decide⟩
  have hl : (EarningsNormalizer.quarter_entries exFirmsZero "2025-Q1").filterMap
      (fun q => q.ai_revenue_mm) = [(0 : ℚ)] := by decide
  simp only [EarningsNormalizer.aggregate_for, hl]
  rw [if_neg (by norm_num [List.foldl])]
